import Mathlib

/-!
Shallow embedding of the MS-RRP NDR codec (package `msrrp` of this repository)
and proofs about it.

Modelling conventions:
* Machine bytes and integers are `Nat`; wherever the Go code converts to a
  fixed-width integer (`uint16`, `uint32`) the model applies the matching
  `% 65536` or `% 4294967296`, and the little-endian serializers `u16le` and
  `u32le` truncate by construction.
* A Go string is modelled as its list of Unicode scalar values (`GoStr`);
  `goLen` is Go's `len` on strings, i.e. the UTF-8 byte count.
* Writes go to an in-memory `bytes.Buffer` and can never fail, so the write
  functions are total; each write function returns the bytes it appends.
  `WOut` additionally carries, as a ghost field, the list of referent-ID
  values written, in order (each `binary.Write` of a referent ID in the
  source is modelled by `WOut.wRef`; all other writes by `WOut.w`).
* Reads use `RSt` (a `bytes.Reader`: the full buffer plus a position).
  `binary.Read` past the end of the buffer is the error `eofErr`; `Seek`
  forward is always allowed (as on a `bytes.Reader`).  Decoders return
  `Except String`; the error paths discard the partially updated receiver,
  which no caller of the source observes.
* `log.Errorln` calls are no-ops and are dropped.
* All call sites in the source pass the little-endian byte order `le` for
  the `bo` parameter, so the model fixes little-endian.
Functions of the repository's `msdtyp` package are not part of the provided
source tree; they are modelled from the specification and say so in their
doc comments.
-/

/-- Decidable equality for `Except`, used to evaluate closed decode results. -/
instance {ε α : Type} [DecidableEq ε] [DecidableEq α] : DecidableEq (Except ε α) := fun x y =>
  match x, y with
  | .ok a, .ok b =>
      if h : a = b then isTrue (by rw [h]) else isFalse (by intro hc; cases hc; exact h rfl)
  | .error a, .error b =>
      if h : a = b then isTrue (by rw [h]) else isFalse (by intro hc; cases hc; exact h rfl)
  | .ok _, .error _ => isFalse (by intro hc; cases hc)
  | .error _, .ok _ => isFalse (by intro hc; cases hc)

/-- A Go string, as its list of Unicode scalar values (runes). -/
abbrev GoStr := List Nat

/-- 2^32, the modulus of Go's `uint32` arithmetic. -/
def U32 : Nat := 4294967296

/-- Number of bytes of the UTF-8 encoding of one rune. -/
def utf8Size (c : Nat) : Nat :=
  if c < 128 then 1 else if c < 2048 then 2 else if c < 65536 then 3 else 4

/-- Go's `len` on a string: the byte length of its UTF-8 encoding. -/
def goLen : GoStr → Nat
  | [] => 0
  | c :: rest => utf8Size c + goLen rest

/-- UTF-16 code units of one rune (a surrogate pair outside the BMP). -/
def utf16UnitsOfRune (c : Nat) : List Nat :=
  if c < 65536 then [c]
  else [55296 + (c - 65536) / 1024, 56320 + (c - 65536) % 1024]

/-- UTF-16 code units of a string. -/
def unitsOf : GoStr → List Nat
  | [] => []
  | c :: rest => utf16UnitsOfRune c ++ unitsOf rest

/-- Little-endian byte serialization of a list of UTF-16 code units. -/
def utf16leBytes : List Nat → List Nat
  | [] => []
  | u :: rest => u % 256 :: u / 256 % 256 :: utf16leBytes rest

/-- UTF-16LE byte encoding of a string. -/
def toUnicodeBytes (s : GoStr) : List Nat := utf16leBytes (unitsOf s)

/-- Little-endian bytes of a `uint16` (truncates like Go's conversion). -/
def u16le (v : Nat) : List Nat := [v % 256, v / 256 % 256]

/-- Little-endian bytes of a `uint32` (truncates like Go's conversion). -/
def u32le (v : Nat) : List Nat :=
  [v % 256, v / 256 % 256, v / 65536 % 256, v / 16777216 % 256]

/-- The little-endian `uint32` stored at index `i` of a byte list. -/
def u32At (l : List Nat) (i : Nat) : Nat :=
  l.getD i 0 + 256 * l.getD (i + 1) 0 + 65536 * l.getD (i + 2) 0 +
    16777216 * l.getD (i + 3) 0

/-- The little-endian `uint16` stored at index `i` of a byte list. -/
def u16At (l : List Nat) (i : Nat) : Nat := l.getD i 0 + 256 * l.getD (i + 1) 0

/-- Reader state: a `bytes.Reader` over a fixed buffer with a position. -/
structure RSt where
  data : List Nat
  pos : Nat
deriving DecidableEq

/-- The error `binary.Read` returns when the buffer runs out of bytes. -/
def eofErr : String := "EOF"

/-- Read a little-endian `uint16` (`binary.Read` of a `uint16`). -/
def readU16 (r : RSt) : Except String (Nat × RSt) :=
  if r.pos + 2 ≤ r.data.length then
    .ok (u16At r.data r.pos, ⟨r.data, r.pos + 2⟩)
  else .error eofErr

/-- Read a little-endian `uint32` (`binary.Read` of a `uint32`). -/
def readU32 (r : RSt) : Except String (Nat × RSt) :=
  if r.pos + 4 ≤ r.data.length then
    .ok (u32At r.data r.pos, ⟨r.data, r.pos + 4⟩)
  else .error eofErr

/-- Read `n` raw bytes (`binary.Read` into a `[]byte` of length `n`). -/
def readBytes (r : RSt) (n : Nat) : Except String (List Nat × RSt) :=
  if r.pos + n ≤ r.data.length then
    .ok ((r.data.drop r.pos).take n, ⟨r.data, r.pos + n⟩)
  else .error eofErr

/-- `Seek(n, io.SeekCurrent)` with `n ≥ 0`: always succeeds on a `bytes.Reader`. -/
def seekCur (r : RSt) (n : Nat) : RSt := ⟨r.data, r.pos + n⟩

/-- Writer output: the bytes written plus, as ghost data, the referent-ID
values written, in order. -/
structure WOut where
  bytes : List Nat
  refIds : List Nat
deriving DecidableEq

/-- Append plain bytes to the output (`binary.Write` of a non-referent value). -/
def WOut.w (o : WOut) (bs : List Nat) : WOut := ⟨o.bytes ++ bs, o.refIds⟩

/-- Write a referent-ID `uint32` and record it in the ghost list. -/
def WOut.wRef (o : WOut) (v : Nat) : WOut := ⟨o.bytes ++ u32le v, o.refIds ++ [v]⟩

instance : Append WOut := ⟨fun a b => ⟨a.bytes ++ b.bytes, a.refIds ++ b.refIds⟩⟩

/-- Modelled from the spec: `msdtyp.NullTerminate` (repository package `msdtyp`,
not under the provided source tree).  Per §4.1 the encoder ensures the encoded
string carries exactly one trailing null terminator, and §8's example (SubKey
`"Software\0"`, already terminated, encodes with a single trailing null), so a
terminator is appended only when one is not already present. -/
def msdtyp.NullTerminate (s : GoStr) : GoStr :=
  if s.getLast? = some 0 then s else s ++ [0]

/-- Modelled from the spec: `msdtyp.StripNullByte` (package `msdtyp`, not under
the provided source tree).  §4.1: strip exactly one trailing null character,
"stripping opportunistically rather than failing". -/
def msdtyp.StripNullByte (s : GoStr) : GoStr :=
  if s.getLast? = some 0 then s.dropLast else s

/-- Return type of `msdtyp.NewUnicodeStr` (its four Go return values). -/
structure UStrParts where
  offset : Nat
  count : Nat
  paddlen : Nat
  buffer : List Nat
deriving DecidableEq

/-- Modelled from the spec: `msdtyp.NewUnicodeStr` (package `msdtyp`, not under
the provided source tree).  §4.1: element count is the UTF-16 element count
(as `uint32`), Offset is 0, the buffer is the UTF-16LE bytes, and the padding
length follows the rule "let `consumed = Offset*2 + ActualCount*2` (bytes); if
`consumed mod 4 == 0`, emit no padding; otherwise emit `4 - (consumed mod 4)`
zero bytes". -/
def msdtyp.NewUnicodeStr (s : GoStr) (nullTerminated : Bool) : UStrParts :=
  let s := if nullTerminated then msdtyp.NullTerminate s else s
  let buffer := toUnicodeBytes s
  let count := (unitsOf s).length % U32
  let offset := 0
  let consumed := offset * 2 + count * 2
  let paddlen := if consumed % 4 = 0 then 0 else 4 - consumed % 4
  ⟨offset, count, paddlen, buffer⟩

/-- Recombine adjacent little-endian byte pairs into UTF-16 code units;
`none` when the byte count is odd. -/
def bytesToUnits : List Nat → Option (List Nat)
  | [] => some []
  | [_] => none
  | b0 :: b1 :: rest => (bytesToUnits rest).map fun us => (b0 + 256 * b1) :: us

/-- Decode UTF-16 code units to runes, pairing surrogates like Go's
`utf16.Decode` (unpaired surrogates become U+FFFD). -/
def fromUtf16Units : List Nat → List Nat
  | [] => []
  | [u] => [if 55296 ≤ u ∧ u < 57344 then 65533 else u]
  | u :: v :: rest =>
    if 55296 ≤ u ∧ u < 56320 ∧ 56320 ≤ v ∧ v < 57344 then
      (65536 + (u - 55296) * 1024 + (v - 56320)) :: fromUtf16Units rest
    else
      (if 55296 ≤ u ∧ u < 57344 then 65533 else u) :: fromUtf16Units (v :: rest)

/-- Modelled from the spec: `msdtyp.FromUnicodeString` (package `msdtyp`, not
under the provided source tree).  §4.1: read the element bytes "as UTF-16LE,
convert to the host string representation"; an odd byte count is a decode
error. -/
def msdtyp.FromUnicodeString (buf : List Nat) : Except String GoStr :=
  match bytesToUnits buf with
  | none => .error ("Invalid Unicode string length")
  | some us => .ok (fromUtf16Units us)

/-- MS-DTYP 2.3.10 `RPC_UNICODE_STRING`: not null-terminated on the wire. -/
structure RPCUnicodeStr where
  MaxLength : Nat
  S : GoStr
deriving DecidableEq

/-- The null-terminated string variant used by MS-RRP requests. -/
structure RRPUnicodeStr where
  MaxLength : Nat
  S : GoStr
deriving DecidableEq

/-- MS-DTYP `FILETIME`. -/
structure Filetime where
  LowDateTime : Nat
  HighDateTime : Nat
deriving DecidableEq

/-- Pointer-to-`FILETIME` wrapper used by `BaseRegEnumKey`. -/
structure PFiletime where
  LowDateTime : Nat
  HighDateTime : Nat
deriving DecidableEq

/-- The external self-relative security descriptor is an opaque blob. -/
structure RpcSecurityDescriptor where
  SecurityDescriptor : Option (List Nat)
  InSecurityDescriptor : Nat
  OutSecurityDescriptor : Nat
deriving DecidableEq

structure RpcSecurityAttributes where
  Length : Nat
  SecurityDescriptor : RpcSecurityDescriptor
  InheritHandle : Nat
deriving DecidableEq

/-- Opnum 5 request. -/
structure BaseRegCloseKeyReq where
  HKey : List Nat
deriving DecidableEq

/-- Opnum 7 request. -/
structure BaseRegDeleteKeyReq where
  HKey : List Nat
  SubKey : RRPUnicodeStr
deriving DecidableEq

/-- Opnum 9 response. -/
structure BaseRegEnumKeyRes where
  NameOut : RRPUnicodeStr
  ClassOut : RRPUnicodeStr
  LastWriteTime : PFiletime
  ReturnCode : Nat
deriving DecidableEq

/-- Opnum 10 request. -/
structure BaseRegEnumValueReq where
  HKey : List Nat
  Index : Nat
  NameIn : RRPUnicodeStr
  «Type» : Nat
  Data : List Nat
  MaxLen : Nat
  DataLen : Nat
deriving DecidableEq

/-- Opnum 12 response. -/
structure BaseRegGetKeySecurityRes where
  SecurityDescriptorOut : RpcSecurityDescriptor
  ReturnCode : Nat
deriving DecidableEq

/-- Opnum 15 request. -/
structure BaseRegOpenKeyReq where
  HKey : List Nat
  SubKey : RRPUnicodeStr
  Options : Nat
  DesiredAccess : Nat
deriving DecidableEq

/-- Opnum 16 response. -/
structure BaseRegQueryInfoKeyRes where
  ClassOut : RPCUnicodeStr
  SubKeys : Nat
  MaxSubKeyLen : Nat
  MaxClassLen : Nat
  Values : Nat
  MaxValueNameLen : Nat
  MaxValueLen : Nat
  SecurityDescriptor : Nat
  LastWriteTime : Filetime
  ReturnCode : Nat
deriving DecidableEq

/-- Modelled from the spec: the external security-descriptor sub-codec's
`marshal(descriptor) -> bytes` (§6).  The codec "only measures its length and
wraps it" (§3), so the descriptor is its own marshalled blob. -/
def msdtyp.SecurityDescriptor.MarshalBinary (blob : List Nat) : List Nat := blob

/-- Modelled from the spec: the external security-descriptor sub-codec's
`unmarshal(bytes) -> descriptor` (§6). -/
def msdtyp.SecurityDescriptor.UnmarshalBinary (buf : List Nat) : Except String (List Nat) :=
  .ok buf

/-- Modelled from the spec: `msdtyp.WriteConformantVaryingArray` (package
`msdtyp`, not under the provided source tree).  §6 wire table: `u32 MaxCount,
u32 Offset, u32 ActualCount, element bytes, zero-padding to 4-byte alignment`;
the allocation count is raised to the element count when smaller (§4.3). -/
def msdtyp.WriteConformantVaryingArray (data : List Nat) (maxCount : Nat) : List Nat :=
  let count := data.length % U32
  let maxC := if maxCount < count then count else maxCount
  u32le maxC ++ u32le 0 ++ u32le count ++ data ++
    List.replicate ((4 - data.length % 4) % 4) 0

/-- Modelled from the spec: `msdtyp.WriteConformantVaryingArrayPtr` (package
`msdtyp`, not under the provided source tree).  §4.2: a pointer field writes
the next referent ID and increments the counter, then the array body. -/
def msdtyp.WriteConformantVaryingArrayPtr (data : List Nat) (maxCount refId : Nat) :
    WOut × Nat :=
  (⟨u32le refId ++ msdtyp.WriteConformantVaryingArray data maxCount, [refId]⟩,
    (refId + 1) % U32)

/-- Padding skipped for a byte-element conformant-varying array (spec §6). -/
def bytePaddSkip (offset actualCount : Nat) : Nat :=
  (4 - (offset + actualCount) % 4) % 4

/-- Modelled from the spec: `msdtyp.ReadConformantVaryingArray` (package
`msdtyp`, not under the provided source tree).  §4.1 mirror for byte elements:
read MaxCount, Offset, ActualCount, seek by Offset, read ActualCount bytes,
skip alignment padding. -/
def msdtyp.ReadConformantVaryingArray (r : RSt) : Except String (List Nat × Nat × RSt) := do
  let (maxCount, r) ← readU32 r
  let (offset, r) ← readU32 r
  let (actualCount, r) ← readU32 r
  let r := if offset > 0 then seekCur r offset else r
  let (data, r) ← readBytes r actualCount
  let r := seekCur r (bytePaddSkip offset actualCount)
  return (data, maxCount, r)

/-- Number of bytes the decoder skips after the element bytes of a
conformant-varying string: `paddLen := 4 - ((offset*2 + actualCount*2) % 4)`
in `uint32` arithmetic, and the reader seeks by it unless it is 4 (a skip of
zero bytes). -/
def readPaddSkip (offset actualCount : Nat) : Nat :=
  let paddLen := 4 - ((offset * 2 % U32 + actualCount * 2 % U32) % U32 % 4)
  if paddLen ≠ 4 then paddLen else 0

/-- `readConformantVaryingString` from the source: MaxCount (zero means an
encoded null pointer), Offset, ActualCount, seek `Offset*2`, read
`ActualCount*2` bytes as UTF-16LE, then skip the alignment padding. -/
def readConformantVaryingString (r : RSt) : Except String (GoStr × RSt) := do
  let (maxCount, r) ← readU32 r
  if maxCount = 0 then
    return ([], r)
  let (offset, r) ← readU32 r
  let (actualCount, r) ← readU32 r
  let r := if offset > 0 then seekCur r (offset * 2) else r
  let (s, r) ←
    if actualCount > 0 then do
      let (unc, r) ← readBytes r (actualCount * 2 % U32)
      let s ← msdtyp.FromUnicodeString unc
      pure (s, r)
    else
      pure (([] : GoStr), r)
  let r := seekCur r (readPaddSkip offset actualCount)
  return (s, r)

/-- `readConformantVaryingStringPtr`: skip the 4-byte referent ID, then read
the conformant-varying string. -/
def readConformantVaryingStringPtr (r : RSt) : Except String (GoStr × RSt) :=
  readConformantVaryingString (seekCur r 4)

/-- `writeConformantVaryingString` from the source: MaxCount is the struct's
`MaxLength`, then Offset and ActualCount (forced to 0 for an empty string),
then — only for a non-empty string — the UTF-16LE bytes and padding. -/
def writeConformantVaryingString (us : RRPUnicodeStr) : List Nat :=
  let parts := msdtyp.NewUnicodeStr us.S true
  let count := if us.S = [] then 0 else parts.count
  let head := u32le us.MaxLength ++ u32le parts.offset ++ u32le count
  if us.S = [] then head
  else head ++ parts.buffer ++ List.replicate parts.paddlen 0

/-- `writeConformantVaryingStringPtr`: write the referent ID (unless the
counter is 0), increment the counter, then the string body. -/
def writeConformantVaryingStringPtr (us : RRPUnicodeStr) (refId : Nat) : WOut × Nat :=
  let w := if refId ≠ 0 then (WOut.mk [] []).wRef refId else WOut.mk [] []
  (w.w (writeConformantVaryingString us), (refId + 1) % U32)

/-- `writeRRPUnicodeStr` from the source: write the encoded byte length (0 for
an empty string; otherwise the string is null-terminated in place first), raise
`MaxLength` to the `uint16` length when smaller, write `MaxLength*2`, then
either a null pointer (empty and optional) or the string pointer.  Returns the
bytes, the mutated struct, and the updated referent-ID counter. -/
def writeRRPUnicodeStr (us0 : RRPUnicodeStr) (refId : Nat) (optional : Bool) :
    WOut × RRPUnicodeStr × Nat :=
  let us := if us0.S = [] then us0 else { us0 with S := msdtyp.NullTerminate us0.S }
  let lenBytes := if us0.S = [] then u16le 0 else u16le (goLen us.S % 65536 * 2)
  let l := goLen us.S % 65536
  let us := if us.MaxLength < l then { us with MaxLength := l } else us
  let head := lenBytes ++ u16le (us.MaxLength * 2)
  if us.S = [] ∧ optional = true then
    (⟨head ++ u32le 0, []⟩, us, refId)
  else
    let (frag, refId) := writeConformantVaryingStringPtr us refId
    ((WOut.mk head []) ++ frag, us, refId)

/-- `RRPUnicodeStr.MarshalBinary`: counter starts at 1, non-optional encode.
Returns the mutated struct alongside the bytes (the Go receiver is mutated). -/
def RRPUnicodeStr.MarshalBinary (self : RRPUnicodeStr) : RRPUnicodeStr × Except String WOut :=
  let refId : Nat := 1
  let (w, us, _) := writeRRPUnicodeStr self refId false
  (us, .ok w)

/-- `readRPCUnicodeStr` from the source: `Length`, `MaximumLength`, then —
when `Length` is non-zero — a pointer to a conformant-varying string; when
zero, skip the 4-byte null pointer. -/
def readRPCUnicodeStr (r : RSt) : Except String (GoStr × Nat × RSt) := do
  let (l, r) ← readU16 r
  let (maxLength, r) ← readU16 r
  if l = 0 then
    return ([], maxLength, seekCur r 4)
  let (s, r) ← readConformantVaryingStringPtr r
  return (s, maxLength, r)

/-- `readRRPUnicodeStr`: read as `RPC_UNICODE_STRING`, then strip the
terminating null character. -/
def readRRPUnicodeStr (r : RSt) : Except String (GoStr × Nat × RSt) := do
  let (s, maxLength, r) ← readRPCUnicodeStr r
  return (msdtyp.StripNullByte s, maxLength, r)

/-- `BaseRegCloseKeyReq.MarshalBinary`: reject a handle that is not exactly
20 bytes before writing anything, else write the 20 handle bytes. -/
def BaseRegCloseKeyReq.MarshalBinary (self : BaseRegCloseKeyReq) :
    BaseRegCloseKeyReq × Except String WOut :=
  if self.HKey.length ≠ 20 then
    (self, .error ("Invalid length of HKey in BaseRegCloseKeyReq"))
  else
    (self, .ok ⟨self.HKey, []⟩)

/-- `BaseRegCloseKeyReq.UnmarshalBinary`: require at least 20 bytes, then read
the 20-byte handle. -/
def BaseRegCloseKeyReq.UnmarshalBinary (self : BaseRegCloseKeyReq) (buf : List Nat) :
    Except String BaseRegCloseKeyReq :=
  if buf.length < 20 then
    .error ("Buffer too short to unmarshal BaseRegCloseKeyReq")
  else
    .ok { self with HKey := buf.take 20 }

/-- `BaseRegDeleteKeyReq.MarshalBinary`: handle guard, 20 handle bytes, then
the `SubKey` string with the referent-ID counter starting at 1.  The receiver's
`SubKey` is mutated by `writeRRPUnicodeStr`. -/
def BaseRegDeleteKeyReq.MarshalBinary (self : BaseRegDeleteKeyReq) :
    BaseRegDeleteKeyReq × Except String WOut :=
  if self.HKey.length ≠ 20 then
    (self, .error ("Invalid length of HKey in BaseRegDeleteKeyReq"))
  else
    let w : WOut := ⟨self.HKey.take 20, []⟩
    let refId : Nat := 1
    let (w2, subKey, _) := writeRRPUnicodeStr self.SubKey refId false
    ({ self with SubKey := subKey }, .ok (w ++ w2))

/-- `BaseRegDeleteKeyReq.UnmarshalBinary` is not implemented (request-only
type); the receiver is untouched. -/
def BaseRegDeleteKeyReq.UnmarshalBinary (self : BaseRegDeleteKeyReq) (_buf : List Nat) :
    BaseRegDeleteKeyReq × Option String :=
  (self, some ("NOT IMPLEMENTED UnmarshalBinary for BaseRegDeleteKeyReq"))

/-- `BaseRegEnumKeyRes.MarshalBinary` is not implemented (response-only type);
the receiver is untouched. -/
def BaseRegEnumKeyRes.MarshalBinary (self : BaseRegEnumKeyRes) :
    BaseRegEnumKeyRes × Except String WOut :=
  (self, .error ("NOT IMPLEMENTED MarshalBinary for BaseRegEnumKeyRes"))

/-- `BaseRegEnumKeyRes.UnmarshalBinary`: a 36-byte minimum check, then
`NameOut`, a skipped referent ID, `ClassOut`, a skipped referent ID,
`LastWriteTime`, and the return code. -/
def BaseRegEnumKeyRes.UnmarshalBinary (self : BaseRegEnumKeyRes) (buf : List Nat) :
    Except String BaseRegEnumKeyRes :=
  if buf.length < 36 then
    .error ("Buffer too short for BaseRegEnumKeyRes")
  else do
    let r : RSt := ⟨buf, 0⟩
    let (nameS, nameMax, r) ← readRRPUnicodeStr r
    let r := seekCur r 4
    let (classS, classMax, r) ← readRRPUnicodeStr r
    let r := seekCur r 4
    let (low, r) ← readU32 r
    let (high, r) ← readU32 r
    let (rc, _) ← readU32 r
    return { self with
      NameOut := ⟨nameMax, nameS⟩
      ClassOut := ⟨classMax, classS⟩
      LastWriteTime := ⟨low, high⟩
      ReturnCode := rc }

/-- `BaseRegEnumValueReq.MarshalBinary`: handle guard, handle, index, then the
five pointer fields (`NameIn`'s string, `Type`, `Data`, `MaxLen`, `DataLen`)
with the referent-ID counter starting at 1. -/
def BaseRegEnumValueReq.MarshalBinary (self : BaseRegEnumValueReq) :
    BaseRegEnumValueReq × Except String WOut :=
  if self.HKey.length ≠ 20 then
    (self, .error ("Invalid length of HKey in BaseRegEnumValueReq"))
  else
    let w : WOut := ⟨self.HKey.take 20, []⟩
    let w := w.w (u32le self.Index)
    let refId : Nat := 1
    let (w2, nameIn, refId) := writeRRPUnicodeStr self.NameIn refId false
    let self := { self with NameIn := nameIn }
    let w := w ++ w2
    let w := w.wRef refId
    let refId := (refId + 1) % U32
    let w := w.w (u32le self.Type)
    let (w3, refId) := msdtyp.WriteConformantVaryingArrayPtr self.Data self.MaxLen refId
    let w := w ++ w3
    let w := w.wRef refId
    let refId := (refId + 1) % U32
    let w := w.w (u32le self.MaxLen)
    let w := w.wRef refId
    let _refId := (refId + 1) % U32
    let w := w.w (u32le self.Data.length)
    (self, .ok w)

/-- `BaseRegEnumValueReq.UnmarshalBinary` is not implemented (request-only
type); the receiver is untouched. -/
def BaseRegEnumValueReq.UnmarshalBinary (self : BaseRegEnumValueReq) (_buf : List Nat) :
    BaseRegEnumValueReq × Option String :=
  (self, some ("NOT IMPLEMENTED UnmarshalBinary for BaseRegEnumValueReq"))

/-- `BaseRegGetKeySecurityRes.MarshalBinary` is not implemented (response-only
type); the receiver is untouched. -/
def BaseRegGetKeySecurityRes.MarshalBinary (self : BaseRegGetKeySecurityRes) :
    BaseRegGetKeySecurityRes × Except String WOut :=
  (self, .error ("NOT IMPLEMENTED MarshalBinary for BaseRegGetKeySecurityRes"))

/-- `BaseRegGetKeySecurityRes.UnmarshalBinary`: a 16-byte minimum check, then
the return code is read from the final 4 bytes (`Seek(-4, io.SeekEnd)`)
before any other field; a non-zero return code ends decoding successfully
with the security descriptor left untouched; otherwise the descriptor
envelope is decoded from offset 4. -/
def BaseRegGetKeySecurityRes.UnmarshalBinary (self : BaseRegGetKeySecurityRes)
    (buf : List Nat) : Except String BaseRegGetKeySecurityRes :=
  if buf.length < 16 then
    .error ("Buffer to short for BaseRegGetKeySecurityRes")
  else do
    let r : RSt := ⟨buf, buf.length - 4⟩
    let (returnCode, _) ← readU32 r
    let self := { self with ReturnCode := returnCode }
    if returnCode ≠ 0 then
      return self
    let r : RSt := ⟨buf, 4⟩
    let (inSD, r) ← readU32 r
    let (outSD, r) ← readU32 r
    let (data, _, _) ← msdtyp.ReadConformantVaryingArray r
    let sd ← msdtyp.SecurityDescriptor.UnmarshalBinary data
    return { self with
      SecurityDescriptorOut :=
        ⟨some sd, inSD, outSD⟩ }

/-- `BaseRegOpenKeyReq.UnmarshalBinary` is not implemented (request-only
type); the receiver is untouched. -/
def BaseRegOpenKeyReq.UnmarshalBinary (self : BaseRegOpenKeyReq) (_buf : List Nat) :
    BaseRegOpenKeyReq × Option String :=
  (self, some ("NOT IMPLEMENTED UnmarshalBinary for BaseRegOpenKeyReq"))

/-- `BaseRegQueryInfoKeyRes.MarshalBinary` is not implemented (response-only
type); the receiver is untouched. -/
def BaseRegQueryInfoKeyRes.MarshalBinary (self : BaseRegQueryInfoKeyRes) :
    BaseRegQueryInfoKeyRes × Except String WOut :=
  (self, .error ("NOT IMPLEMENTED MarshalBinary for BaseRegQueryInfoKeyRes"))

/-- `BaseRegQueryInfoKeyRes.UnmarshalBinary`: no minimum-length validation;
it reads `ClassOut`, seven `uint32` fields, `LastWriteTime`, and the return
code directly, so a short buffer fails with the primitive reader's error. -/
def BaseRegQueryInfoKeyRes.UnmarshalBinary (self : BaseRegQueryInfoKeyRes)
    (buf : List Nat) : Except String BaseRegQueryInfoKeyRes := do
  let r : RSt := ⟨buf, 0⟩
  let (classS, classMax, r) ← readRPCUnicodeStr r
  let (subKeys, r) ← readU32 r
  let (maxSubKeyLen, r) ← readU32 r
  let (maxClassLen, r) ← readU32 r
  let (values, r) ← readU32 r
  let (maxValueNameLen, r) ← readU32 r
  let (maxValueLen, r) ← readU32 r
  let (securityDescriptor, r) ← readU32 r
  let (low, r) ← readU32 r
  let (high, r) ← readU32 r
  let (rc, _) ← readU32 r
  return { self with
    ClassOut := ⟨classMax, classS⟩
    SubKeys := subKeys
    MaxSubKeyLen := maxSubKeyLen
    MaxClassLen := maxClassLen
    Values := values
    MaxValueNameLen := maxValueNameLen
    MaxValueLen := maxValueLen
    SecurityDescriptor := securityDescriptor
    LastWriteTime := ⟨low, high⟩
    ReturnCode := rc }

/-- `writeRPCSecurityAttributes` from the source: write the current referent
ID and increment; marshal the descriptor blob (little-endian per MS-DTYP
2.4.6); raise `Length` to the blob length when smaller and write it;
increment the counter again (without writing); write the now-current referent
ID and increment; write the two size fields, `InheritHandle` as a `uint32`,
and the blob as a conformant-varying array.  A nil descriptor dereferences a
nil pointer in the source, modelled as an error. -/
def writeRPCSecurityAttributes (sa : RpcSecurityAttributes) (refId : Nat) :
    Except String (WOut × Nat) :=
  match sa.SecurityDescriptor.SecurityDescriptor with
  | none => .error ("nil pointer dereference in writeRPCSecurityAttributes")
  | some blob =>
    let w := (WOut.mk [] []).wRef refId
    let refId := (refId + 1) % U32
    let buf := msdtyp.SecurityDescriptor.MarshalBinary blob
    let buflen := buf.length % U32
    let sa := if sa.Length < buflen then { sa with Length := buflen } else sa
    let w := w.w (u32le sa.Length)
    let refId := (refId + 1) % U32
    let w := w.wRef refId
    let refId := (refId + 1) % U32
    let w := w.w (u32le buflen)
    let w := w.w (u32le buflen)
    let w := w.w (u32le sa.InheritHandle)
    let w := w.w (msdtyp.WriteConformantVaryingArray buf 0)
    .ok (w, refId)

theorem WOut.append_bytes (a b : WOut) : (a ++ b).bytes = a.bytes ++ b.bytes := rfl

theorem WOut.append_refIds (a b : WOut) : (a ++ b).refIds = a.refIds ++ b.refIds := rfl

theorem getD_append_len {α : Type} (pre l : List α) (k : Nat) (d : α) :
    (pre ++ l).getD (pre.length + k) d = l.getD k d := by
  rw [List.getD_append_right pre l d (pre.length + k) (Nat.le_add_right _ _)]
  simp

/-- C8: calling the unimplemented direction of a one-directional operation
type (decode of a request-only type, encode of a response-only type) returns
the not-implemented error and leaves the receiver unchanged; the functions
are total, so no panic is possible. -/
theorem not_implemented_directions :
    (∀ (self : BaseRegOpenKeyReq) (buf : List Nat),
      BaseRegOpenKeyReq.UnmarshalBinary self buf =
        (self, some ("NOT IMPLEMENTED UnmarshalBinary for BaseRegOpenKeyReq"))) ∧
    (∀ self : BaseRegQueryInfoKeyRes,
      BaseRegQueryInfoKeyRes.MarshalBinary self =
        (self, .error ("NOT IMPLEMENTED MarshalBinary for BaseRegQueryInfoKeyRes"))) ∧
    (∀ (self : BaseRegDeleteKeyReq) (buf : List Nat),
      BaseRegDeleteKeyReq.UnmarshalBinary self buf =
        (self, some ("NOT IMPLEMENTED UnmarshalBinary for BaseRegDeleteKeyReq"))) ∧
    (∀ (self : BaseRegEnumValueReq) (buf : List Nat),
      BaseRegEnumValueReq.UnmarshalBinary self buf =
        (self, some ("NOT IMPLEMENTED UnmarshalBinary for BaseRegEnumValueReq"))) ∧
    (∀ self : BaseRegEnumKeyRes,
      BaseRegEnumKeyRes.MarshalBinary self =
        (self, .error ("NOT IMPLEMENTED MarshalBinary for BaseRegEnumKeyRes"))) ∧
    (∀ self : BaseRegGetKeySecurityRes,
      BaseRegGetKeySecurityRes.MarshalBinary self =
        (self, .error ("NOT IMPLEMENTED MarshalBinary for BaseRegGetKeySecurityRes"))) :=
  ⟨fun _ _ => rfl, fun _ => rfl, fun _ _ => rfl, fun _ _ => rfl, fun _ => rfl, fun _ => rfl⟩

/-- C5: encoding a key handle whose length is not exactly 20 bytes fails with
the invalid-handle-length error and produces no bytes; a 20-byte handle
encodes to exactly those 20 bytes, and decoding them yields the identical
handle back. -/
theorem handle_length_guard (self : BaseRegCloseKeyReq) :
    (self.HKey.length ≠ 20 →
      (BaseRegCloseKeyReq.MarshalBinary self).2 =
        .error ("Invalid length of HKey in BaseRegCloseKeyReq")) ∧
    (self.HKey.length = 20 →
      (BaseRegCloseKeyReq.MarshalBinary self).2 = .ok ⟨self.HKey, []⟩ ∧
      BaseRegCloseKeyReq.UnmarshalBinary ⟨[]⟩ self.HKey = .ok ⟨self.HKey⟩) := by
  constructor
  · intro h
    simp [BaseRegCloseKeyReq.MarshalBinary, h]
  · intro h
    constructor
    · simp [BaseRegCloseKeyReq.MarshalBinary, h]
    · simp only [BaseRegCloseKeyReq.UnmarshalBinary, h]
      norm_num
      omega

/-- Witness for `handle_length_guard`: a 19-byte and a 21-byte handle fail
with the invalid-handle-length error; a concrete 20-byte handle round-trips. -/
theorem handle_length_guard_witness :
    ((BaseRegCloseKeyReq.mk (List.replicate 19 0)).HKey.length ≠ 20 ∧
      (BaseRegCloseKeyReq.MarshalBinary ⟨List.replicate 19 0⟩).2 =
        .error ("Invalid length of HKey in BaseRegCloseKeyReq")) ∧
    ((BaseRegCloseKeyReq.mk (List.replicate 21 0)).HKey.length ≠ 20 ∧
      (BaseRegCloseKeyReq.MarshalBinary ⟨List.replicate 21 0⟩).2 =
        .error ("Invalid length of HKey in BaseRegCloseKeyReq")) ∧
    ((BaseRegCloseKeyReq.mk (List.replicate 20 7)).HKey.length = 20 ∧
      (BaseRegCloseKeyReq.MarshalBinary ⟨List.replicate 20 7⟩).2 =
        .ok ⟨List.replicate 20 7, []⟩ ∧
      BaseRegCloseKeyReq.UnmarshalBinary ⟨[]⟩ (List.replicate 20 7) =
        .ok ⟨List.replicate 20 7⟩) :=
  ⟨⟨by decide, (handle_length_guard ⟨List.replicate 19 0⟩).1 (by decide)⟩,
   ⟨by decide, (handle_length_guard ⟨List.replicate 21 0⟩).1 (by decide)⟩,
   ⟨by decide, (handle_length_guard ⟨List.replicate 20 7⟩).2 (by decide)⟩⟩

theorem newUnicodeStr_offset (s : GoStr) (b : Bool) : (msdtyp.NewUnicodeStr s b).offset = 0 := by
  cases b <;> rfl

theorem newUnicodeStr_count_true (s : GoStr) :
    (msdtyp.NewUnicodeStr s true).count = (unitsOf (msdtyp.NullTerminate s)).length % U32 := rfl

theorem newUnicodeStr_buffer_true (s : GoStr) :
    (msdtyp.NewUnicodeStr s true).buffer = toUnicodeBytes (msdtyp.NullTerminate s) := rfl

theorem padFormula (x : Nat) : (if x % 4 = 0 then 0 else 4 - x % 4) = (4 - x % 4) % 4 := by
  have h : x % 4 < 4 := Nat.mod_lt _ (by norm_num)
  split <;> omega

theorem newUnicodeStr_paddlen (s : GoStr) (b : Bool) :
    (msdtyp.NewUnicodeStr s b).paddlen =
      (4 - ((msdtyp.NewUnicodeStr s b).offset * 2 +
          (msdtyp.NewUnicodeStr s b).count * 2) % 4) % 4 := by
  simp only [msdtyp.NewUnicodeStr]
  exact padFormula _

theorem writeCVS_eq (us : RRPUnicodeStr) (h : us.S ≠ []) :
    writeConformantVaryingString us =
      u32le us.MaxLength ++ u32le (msdtyp.NewUnicodeStr us.S true).offset ++
        u32le (msdtyp.NewUnicodeStr us.S true).count ++
        (msdtyp.NewUnicodeStr us.S true).buffer ++
        List.replicate (msdtyp.NewUnicodeStr us.S true).paddlen 0 := by
  simp [writeConformantVaryingString, h]

/-- C1: the number of padding bytes skipped by the string decoder after the
element bytes, and the number of padding bytes the string encoder appends
after them, both equal `(4 - (Offset*2 + ActualCount*2) mod 4) mod 4`. -/
theorem padding_rule :
    (∀ offset actualCount : Nat,
      readPaddSkip offset actualCount = (4 - (offset * 2 + actualCount * 2) % 4) % 4) ∧
    (∀ us : RRPUnicodeStr, us.S ≠ [] →
      writeConformantVaryingString us =
        u32le us.MaxLength ++ u32le (msdtyp.NewUnicodeStr us.S true).offset ++
          u32le (msdtyp.NewUnicodeStr us.S true).count ++
          (msdtyp.NewUnicodeStr us.S true).buffer ++
          List.replicate
            ((4 - ((msdtyp.NewUnicodeStr us.S true).offset * 2 +
                (msdtyp.NewUnicodeStr us.S true).count * 2) % 4) % 4) 0) := by
  constructor
  · intro offset actualCount
    simp only [readPaddSkip, U32]
    split <;> omega
  · intro us h
    rw [writeCVS_eq us h, newUnicodeStr_paddlen]

/-- Witness for `padding_rule`: the writer clause at the concrete non-empty
string "a" (one element plus terminator: two elements, no padding needed). -/
theorem padding_rule_witness :
    ((RRPUnicodeStr.mk 5 [97]).S ≠ [] →
      writeConformantVaryingString ⟨5, [97]⟩ =
        u32le (RRPUnicodeStr.mk 5 [97]).MaxLength ++
          u32le (msdtyp.NewUnicodeStr (RRPUnicodeStr.mk 5 [97]).S true).offset ++
          u32le (msdtyp.NewUnicodeStr (RRPUnicodeStr.mk 5 [97]).S true).count ++
          (msdtyp.NewUnicodeStr (RRPUnicodeStr.mk 5 [97]).S true).buffer ++
          List.replicate
            ((4 - ((msdtyp.NewUnicodeStr (RRPUnicodeStr.mk 5 [97]).S true).offset * 2 +
                (msdtyp.NewUnicodeStr (RRPUnicodeStr.mk 5 [97]).S true).count * 2) % 4) % 4) 0) ∧
    readPaddSkip 0 3 = (4 - (0 * 2 + 3 * 2) % 4) % 4 :=
  ⟨fun _ => padding_rule.2 ⟨5, [97]⟩ (by decide), padding_rule.1 0 3⟩

/-- Counterexample to C3: for the string "a" with supplied `MaxLength = 10`,
the emitted MaxCount (first `u32`) is 10, the struct's `MaxLength`, while the
actual element count and the emitted ActualCount (third `u32`) are 2 — so
MaxCount does not equal the actual element count. -/
theorem maxcount_cex :
    u32At (writeConformantVaryingString ⟨10, [97]⟩) 0 = 10 ∧
    u32At (writeConformantVaryingString ⟨10, [97]⟩) 8 = 2 ∧
    (msdtyp.NewUnicodeStr ([97] : GoStr) true).count = 2 ∧
    (10 : Nat) ≠ 2 := by decide

/-- C3 (amended): for every non-empty string the emitted conformant-varying
array has MaxCount equal to the struct's `MaxLength` field (not the element
count), Offset 0, ActualCount equal to the actual element count, followed by
the UTF-16LE bytes and the alignment padding. -/
theorem conformant_header_amended (us : RRPUnicodeStr) (h : us.S ≠ []) :
    writeConformantVaryingString us =
      u32le us.MaxLength ++ u32le 0 ++
        u32le ((unitsOf (msdtyp.NullTerminate us.S)).length % U32) ++
        utf16leBytes (unitsOf (msdtyp.NullTerminate us.S)) ++
        List.replicate (msdtyp.NewUnicodeStr us.S true).paddlen 0 := by
  have hw := writeCVS_eq us h
  rwa [newUnicodeStr_offset, newUnicodeStr_count_true, newUnicodeStr_buffer_true,
    toUnicodeBytes] at hw

/-- Witness for `conformant_header_amended` at the concrete string "B". -/
theorem conformant_header_amended_witness :
    (RRPUnicodeStr.mk 7 [66]).S ≠ [] ∧
    writeConformantVaryingString ⟨7, [66]⟩ =
      u32le (RRPUnicodeStr.mk 7 [66]).MaxLength ++ u32le 0 ++
        u32le ((unitsOf (msdtyp.NullTerminate (RRPUnicodeStr.mk 7 [66]).S)).length % U32) ++
        utf16leBytes (unitsOf (msdtyp.NullTerminate (RRPUnicodeStr.mk 7 [66]).S)) ++
        List.replicate (msdtyp.NewUnicodeStr (RRPUnicodeStr.mk 7 [66]).S true).paddlen 0 :=
  ⟨by decide, conformant_header_amended ⟨7, [66]⟩ (by decide)⟩

theorem nullTerminate_ne_nil (s : GoStr) : msdtyp.NullTerminate s ≠ [] := by
  unfold msdtyp.NullTerminate
  split
  case isTrue h => intro hnil; subst hnil; simp at h
  case isFalse h => simp

theorem writeRRP_refIds (us : RRPUnicodeStr) (r : Nat) (hr : r ≠ 0) (opt : Bool)
    (hopt : ¬(us.S = [] ∧ opt = true)) :
    (writeRRPUnicodeStr us r opt).1.refIds = [r] ∧
    (writeRRPUnicodeStr us r opt).2.2 = (r + 1) % U32 := by
  by_cases hS : us.S = []
  · have hoptF : opt = false := by
      cases opt
      · rfl
      · exact absurd ⟨hS, rfl⟩ hopt
    subst hoptF
    simp [writeRRPUnicodeStr, writeConformantVaryingStringPtr, hS, hr,
      WOut.w, WOut.wRef, WOut.append_refIds]
  · simp [writeRRPUnicodeStr, writeConformantVaryingStringPtr, hS, hr,
      WOut.w, WOut.wRef, WOut.append_refIds, apply_ite RRPUnicodeStr.S,
      nullTerminate_ne_nil us.S]

/-- C6: during the encode of one `BaseRegEnumValueReq` the referent-ID counter
starts at 1 and each pointer field consumes the next value in order; the
referent IDs written into the stream are exactly 1, 2, 3, 4, 5, so the first
three pointer slots carry 1, 2, 3. -/
theorem refid_sequence_enum_value (req : BaseRegEnumValueReq)
    (h : req.HKey.length = 20) :
    (BaseRegEnumValueReq.MarshalBinary req).2.map WOut.refIds = .ok [1, 2, 3, 4, 5] := by
  rcases hw : writeRRPUnicodeStr req.NameIn 1 false with ⟨w2, us2, r2⟩
  have hcomp := writeRRP_refIds req.NameIn 1 (by norm_num) false (by simp)
  rw [hw] at hcomp
  have hids : w2.refIds = [1] := hcomp.1
  have hr2 : r2 = 2 := by
    have := hcomp.2
    simpa [U32] using this
  subst hr2
  simp only [BaseRegEnumValueReq.MarshalBinary]
  rw [if_neg (by simp [h])]
  rw [hw]
  simp [msdtyp.WriteConformantVaryingArrayPtr, WOut.w, WOut.wRef, WOut.append_refIds,
    Except.map, hids, U32]

/-- Witness for `refid_sequence_enum_value` at a concrete request. -/
theorem refid_sequence_enum_value_witness :
    (BaseRegEnumValueReq.mk (List.replicate 20 0) 0 ⟨0, []⟩ 0 [] 0 0).HKey.length = 20 ∧
    (BaseRegEnumValueReq.MarshalBinary
        ⟨List.replicate 20 0, 0, ⟨0, []⟩, 0, [], 0, 0⟩).2.map WOut.refIds =
      .ok [1, 2, 3, 4, 5] :=
  ⟨by decide,
    refid_sequence_enum_value ⟨List.replicate 20 0, 0, ⟨0, []⟩, 0, [], 0, 0⟩ (by decide)⟩

/-- C10: with counter value `r` on entry, `writeRPCSecurityAttributes` writes
exactly the two referent IDs `r` and `r+2` (the value `r+1` is consumed by an
extra increment but never written) and leaves the counter at `r+3`. -/
theorem security_attributes_refids (sa : RpcSecurityAttributes) (r : Nat)
    (blob : List Nat) (hsd : sa.SecurityDescriptor.SecurityDescriptor = some blob)
    (hr : r + 3 < U32) :
    (writeRPCSecurityAttributes sa r).map (fun p => p.1.refIds) = .ok [r, r + 2] ∧
    (writeRPCSecurityAttributes sa r).map (fun p => p.2) = .ok (r + 3) ∧
    (r + 1) ∉ ([r, r + 2] : List Nat) := by
  have h1 : (r + 1) % U32 = r + 1 := Nat.mod_eq_of_lt (by omega)
  have h2 : (r + 1 + 1) % U32 = r + 2 := Nat.mod_eq_of_lt (by omega)
  have h3 : (r + 2 + 1) % U32 = r + 3 := Nat.mod_eq_of_lt (by omega)
  refine ⟨?_, ?_, by simp⟩ <;>
    simp [writeRPCSecurityAttributes, hsd, WOut.w, WOut.wRef, Except.map, h1, h2, h3]

/-- Witness for `security_attributes_refids` at a concrete attribute record
and entry counter 1: the emitted referent IDs are 1 and 3, the counter leaves
as 4, and 2 never appears. -/
theorem security_attributes_refids_witness :
    (RpcSecurityAttributes.mk 0 ⟨some [1, 2, 3, 4], 0, 0⟩ 1).SecurityDescriptor.SecurityDescriptor =
      some [1, 2, 3, 4] ∧
    (1 : Nat) + 3 < U32 ∧
    ((writeRPCSecurityAttributes ⟨0, ⟨some [1, 2, 3, 4], 0, 0⟩, 1⟩ 1).map
        (fun p => p.1.refIds) = .ok [1, 1 + 2] ∧
      (writeRPCSecurityAttributes ⟨0, ⟨some [1, 2, 3, 4], 0, 0⟩, 1⟩ 1).map
        (fun p => p.2) = .ok (1 + 3) ∧
      (1 : Nat) + 1 ∉ ([1, 1 + 2] : List Nat)) :=
  ⟨rfl, by norm_num [U32],
    security_attributes_refids ⟨0, ⟨some [1, 2, 3, 4], 0, 0⟩, 1⟩ 1 [1, 2, 3, 4] rfl
      (by norm_num [U32])⟩

theorem nullTerminate_of_not_term (s : GoStr) (h : s.getLast? ≠ some 0) :
    msdtyp.NullTerminate s = s ++ [0] := by
  unfold msdtyp.NullTerminate
  rw [if_neg h]

theorem append_null_ne (s : GoStr) : s ++ [0] ≠ s := by
  intro h
  have := congrArg List.length h
  simp at this

theorem writeRRP_mutation (us : RRPUnicodeStr) (r : Nat) (opt : Bool)
    (hS : us.S ≠ []) (hterm : us.S.getLast? ≠ some 0) :
    (writeRRPUnicodeStr us r opt).2.1 =
      ⟨if us.MaxLength < goLen (us.S ++ [0]) % 65536 then goLen (us.S ++ [0]) % 65536
        else us.MaxLength, us.S ++ [0]⟩ := by
  have hNT : msdtyp.NullTerminate us.S = us.S ++ [0] := nullTerminate_of_not_term _ hterm
  by_cases hM : us.MaxLength < goLen (us.S ++ [0]) % 65536 <;>
    simp [writeRRPUnicodeStr, hS, hNT, hM, apply_ite RRPUnicodeStr.S,
      writeConformantVaryingStringPtr]

theorem deleteKey_marshal_self (req : BaseRegDeleteKeyReq) (hk : req.HKey.length = 20) :
    (BaseRegDeleteKeyReq.MarshalBinary req).1 =
      { req with SubKey := (writeRRPUnicodeStr req.SubKey 1 false).2.1 } := by
  have hcond : ¬(req.HKey.length ≠ 20) := by simp [hk]
  simp only [BaseRegDeleteKeyReq.MarshalBinary, if_neg hcond]

/-- Counterexample to C9: for a request whose non-empty string field already
ends in a null character and whose `MaxLength` is large enough, a successful
`MarshalBinary` leaves the request's string fields exactly as supplied. -/
theorem marshal_mutation_cex :
    (BaseRegDeleteKeyReq.MarshalBinary ⟨List.replicate 20 0, ⟨9, [97, 0]⟩⟩).1 =
      ⟨List.replicate 20 0, ⟨9, [97, 0]⟩⟩ ∧
    (∃ w, (BaseRegDeleteKeyReq.MarshalBinary ⟨List.replicate 20 0, ⟨9, [97, 0]⟩⟩).2 =
      Except.ok w) ∧
    (RRPUnicodeStr.mk 9 [97, 0]).S ≠ [] :=
  ⟨by decide, ⟨_, rfl⟩, by decide⟩

/-- C9 (amended): `writeRRPUnicodeStr` mutates the caller's struct in place —
it replaces the string with `NullTerminate` of it and raises `MaxLength` to
the terminated `uint16` length when smaller — so, whenever the supplied
non-empty string does not already end in a null character, the string stored
after a successful `MarshalBinary` differs from the one supplied. -/
theorem marshal_mutation_amended (us : RRPUnicodeStr) (r : Nat) (opt : Bool)
    (hS : us.S ≠ []) (hterm : us.S.getLast? ≠ some 0) :
    (writeRRPUnicodeStr us r opt).2.1.S = us.S ++ [0] ∧
    (writeRRPUnicodeStr us r opt).2.1.S ≠ us.S ∧
    (writeRRPUnicodeStr us r opt).2.1.MaxLength =
      (if us.MaxLength < goLen (us.S ++ [0]) % 65536 then goLen (us.S ++ [0]) % 65536
        else us.MaxLength) ∧
    (∀ req : BaseRegDeleteKeyReq, req.SubKey = us → req.HKey.length = 20 →
      (BaseRegDeleteKeyReq.MarshalBinary req).1.SubKey.S ≠ us.S) := by
  have hmut := writeRRP_mutation us r opt hS hterm
  refine ⟨by rw [hmut], by rw [hmut]; exact append_null_ne us.S, by rw [hmut], ?_⟩
  intro req hsub hk
  rw [deleteKey_marshal_self req hk]
  have hmut1 := writeRRP_mutation us 1 false hS hterm
  simp only [hsub, hmut1]
  exact append_null_ne us.S

/-- Witness for `marshal_mutation_amended` at the concrete string "Hi". -/
theorem marshal_mutation_amended_witness :
    (RRPUnicodeStr.mk 0 [72, 105]).S ≠ [] ∧
    (RRPUnicodeStr.mk 0 [72, 105]).S.getLast? ≠ some 0 ∧
    ((writeRRPUnicodeStr ⟨0, [72, 105]⟩ 1 false).2.1.S = [72, 105] ++ [0] ∧
      (writeRRPUnicodeStr ⟨0, [72, 105]⟩ 1 false).2.1.S ≠ [72, 105] ∧
      (writeRRPUnicodeStr ⟨0, [72, 105]⟩ 1 false).2.1.MaxLength =
        (if (0 : Nat) < goLen ([72, 105] ++ [0]) % 65536 then goLen ([72, 105] ++ [0]) % 65536
          else 0) ∧
      (∀ req : BaseRegDeleteKeyReq, req.SubKey = ⟨0, [72, 105]⟩ → req.HKey.length = 20 →
        (BaseRegDeleteKeyReq.MarshalBinary req).1.SubKey.S ≠ [72, 105])) :=
  ⟨by decide, by decide, marshal_mutation_amended ⟨0, [72, 105]⟩ 1 false (by decide) (by decide)⟩

/-- C7: `BaseRegGetKeySecurityRes.UnmarshalBinary` reads the return code from
the final 4 bytes first; when it is non-zero, decoding succeeds with only the
return code set and the security-descriptor field untouched (so it stays
`nil` when the receiver was fresh). -/
theorem getkeysecurity_returncode_first (self : BaseRegGetKeySecurityRes)
    (buf : List Nat) (hlen : 16 ≤ buf.length)
    (hrc : u32At buf (buf.length - 4) ≠ 0) :
    BaseRegGetKeySecurityRes.UnmarshalBinary self buf =
      .ok { self with ReturnCode := u32At buf (buf.length - 4) } ∧
    (BaseRegGetKeySecurityRes.mk self.SecurityDescriptorOut
        (u32At buf (buf.length - 4))).SecurityDescriptorOut.SecurityDescriptor =
      self.SecurityDescriptorOut.SecurityDescriptor := by
  refine ⟨?_, rfl⟩
  simp only [BaseRegGetKeySecurityRes.UnmarshalBinary]
  rw [if_neg (by omega)]
  have hguard : buf.length - 4 + 4 ≤ buf.length := by omega
  simp [readU32, hguard, hrc, Bind.bind, Except.bind, pure, Except.pure]

/-- Witness for `getkeysecurity_returncode_first`: a 16-byte buffer whose last
4 bytes encode 5 decodes to just `ReturnCode = 5` with a `nil` descriptor. -/
theorem getkeysecurity_returncode_first_witness :
    (16 : Nat) ≤ (List.replicate 12 0 ++ [5, 0, 0, 0] : List Nat).length ∧
    u32At (List.replicate 12 0 ++ [5, 0, 0, 0])
        ((List.replicate 12 0 ++ [5, 0, 0, 0] : List Nat).length - 4) ≠ 0 ∧
    (BaseRegGetKeySecurityRes.UnmarshalBinary ⟨⟨none, 0, 0⟩, 0⟩
        (List.replicate 12 0 ++ [5, 0, 0, 0]) =
      .ok { BaseRegGetKeySecurityRes.mk ⟨none, 0, 0⟩ 0 with
        ReturnCode := u32At (List.replicate 12 0 ++ [5, 0, 0, 0])
          ((List.replicate 12 0 ++ [5, 0, 0, 0] : List Nat).length - 4) } ∧
      (BaseRegGetKeySecurityRes.mk
          (BaseRegGetKeySecurityRes.mk ⟨none, 0, 0⟩ 0).SecurityDescriptorOut
          (u32At (List.replicate 12 0 ++ [5, 0, 0, 0])
            ((List.replicate 12 0 ++ [5, 0, 0, 0] : List Nat).length -
              4))).SecurityDescriptorOut.SecurityDescriptor =
        (BaseRegGetKeySecurityRes.mk ⟨none, 0, 0⟩ 0).SecurityDescriptorOut.SecurityDescriptor) :=
  ⟨by decide, by decide,
    getkeysecurity_returncode_first ⟨⟨none, 0, 0⟩, 0⟩ (List.replicate 12 0 ++ [5, 0, 0, 0])
      (by decide) (by decide)⟩

theorem readRPC_short (buf : List Nat) (hlen : buf.length < 8) :
    readRPCUnicodeStr ⟨buf, 0⟩ = .error eofErr ∨
    ∃ s m p, readRPCUnicodeStr ⟨buf, 0⟩ = .ok (s, m, ⟨buf, p⟩) ∧ 8 ≤ p := by
  by_cases h2 : 0 + 2 ≤ buf.length
  · by_cases h4 : 2 + 2 ≤ buf.length
    · by_cases hl : u16At buf 0 = 0
      · right
        refine ⟨[], u16At buf 2, 8, ?_, le_refl 8⟩
        simp [readRPCUnicodeStr, readU16, h2, h4, hl, seekCur, Bind.bind, Except.bind,
          pure, Except.pure]
      · left
        have h12 : ¬(4 + 4 + 4 ≤ buf.length) := by omega
        simp [readRPCUnicodeStr, readU16, h2, h4, hl, seekCur,
          readConformantVaryingStringPtr, readConformantVaryingString, readU32, h12,
          Bind.bind, Except.bind, pure, Except.pure]
    · left
      simp [readRPCUnicodeStr, readU16, h2, h4, Bind.bind, Except.bind]
  · left
    simp [readRPCUnicodeStr, readU16, h2, Bind.bind, Except.bind]

/-- Counterexample to C4: `BaseRegQueryInfoKeyRes.UnmarshalBinary` performs no
minimum-length validation; on an empty buffer it fails with the primitive
reader's end-of-input error, not with a buffer-too-short error produced
before any field is read. -/
theorem queryinfo_tooshort_cex :
    BaseRegQueryInfoKeyRes.UnmarshalBinary ⟨⟨0, []⟩, 0, 0, 0, 0, 0, 0, 0, ⟨0, 0⟩, 0⟩ [] =
      .error eofErr ∧ eofErr = "EOF" :=
  ⟨by decide, rfl⟩

/-- C4 (amended): `BaseRegEnumKeyRes.UnmarshalBinary` validates its declared
36-byte minimum and fails with its buffer-too-short error before reading any
field; `BaseRegQueryInfoKeyRes.UnmarshalBinary` has no such check, and on a
buffer shorter than its 8-byte fixed prefix it fails with the end-of-input
error of the first primitive read that runs out of bytes.  In both cases no
read goes past the end of the buffer. -/
theorem bounds_check_amended :
    (∀ (self : BaseRegEnumKeyRes) (buf : List Nat), buf.length < 36 →
      BaseRegEnumKeyRes.UnmarshalBinary self buf =
        .error ("Buffer too short for BaseRegEnumKeyRes")) ∧
    (∀ (self : BaseRegQueryInfoKeyRes) (buf : List Nat), buf.length < 8 →
      BaseRegQueryInfoKeyRes.UnmarshalBinary self buf = .error eofErr) := by
  constructor
  · intro self buf h
    simp [BaseRegEnumKeyRes.UnmarshalBinary, h]
  · intro self buf h
    rcases readRPC_short buf h with he | ⟨s, m, p, he, hp⟩
    · simp [BaseRegQueryInfoKeyRes.UnmarshalBinary, he, Bind.bind, Except.bind]
    · have hng : ¬(p + 4 ≤ buf.length) := by omega
      simp [BaseRegQueryInfoKeyRes.UnmarshalBinary, he, readU32, hng, Bind.bind, Except.bind]

/-- Witness for `bounds_check_amended`: a 35-byte buffer is rejected by
`BaseRegEnumKeyRes` with its buffer-too-short error, and a 7-byte buffer makes
`BaseRegQueryInfoKeyRes` fail with the end-of-input error. -/
theorem bounds_check_amended_witness :
    ((List.replicate 35 0 : List Nat).length < 36 ∧
      BaseRegEnumKeyRes.UnmarshalBinary ⟨⟨0, []⟩, ⟨0, []⟩, ⟨0, 0⟩, 0⟩ (List.replicate 35 0) =
        .error ("Buffer too short for BaseRegEnumKeyRes")) ∧
    ((List.replicate 7 0 : List Nat).length < 8 ∧
      BaseRegQueryInfoKeyRes.UnmarshalBinary ⟨⟨0, []⟩, 0, 0, 0, 0, 0, 0, 0, ⟨0, 0⟩, 0⟩
          (List.replicate 7 0) = .error eofErr) :=
  ⟨⟨by decide, bounds_check_amended.1 ⟨⟨0, []⟩, ⟨0, []⟩, ⟨0, 0⟩, 0⟩ (List.replicate 35 0)
      (by decide)⟩,
   ⟨by decide, bounds_check_amended.2 ⟨⟨0, []⟩, 0, 0, 0, 0, 0, 0, 0, ⟨0, 0⟩, 0⟩
      (List.replicate 7 0) (by decide)⟩⟩

theorem utf8Size_pos (c : Nat) : 1 ≤ utf8Size c := by
  unfold utf8Size
  split_ifs <;> norm_num

theorem goLen_append (s t : GoStr) : goLen (s ++ t) = goLen s + goLen t := by
  induction s with
  | nil => simp [goLen]
  | cons c rest ih => simp [goLen, ih]; omega

theorem length_le_goLen (s : GoStr) : s.length ≤ goLen s := by
  induction s with
  | nil => simp [goLen]
  | cons c rest ih =>
    have := utf8Size_pos c
    simp only [List.length_cons, goLen]
    omega

theorem unitsOf_bmp (s : GoStr) (h : ∀ c ∈ s, c < 65536) : unitsOf s = s := by
  induction s with
  | nil => rfl
  | cons c rest ih =>
    have hc : c < 65536 := h c (by simp)
    simp [unitsOf, utf16UnitsOfRune, hc, ih (fun x hx => h x (by simp [hx]))]

theorem utf16leBytes_length (us : List Nat) : (utf16leBytes us).length = 2 * us.length := by
  induction us with
  | nil => rfl
  | cons u rest ih => simp [utf16leBytes, ih]; omega

theorem bytesToUnits_utf16leBytes (us : List Nat) (h : ∀ u ∈ us, u < 65536) :
    bytesToUnits (utf16leBytes us) = some us := by
  induction us with
  | nil => rfl
  | cons u rest ih =>
    have hu : u < 65536 := h u (by simp)
    have hval : u % 256 + 256 * (u / 256 % 256) = u := by omega
    simp [utf16leBytes, bytesToUnits, ih (fun x hx => h x (by simp [hx])), hval]

theorem fromUtf16Units_cons (u : Nat) (t : List Nat) (h : ¬(55296 ≤ u ∧ u < 57344)) :
    fromUtf16Units (u :: t) = u :: fromUtf16Units t := by
  cases t with
  | nil => simp [fromUtf16Units, h]
  | cons v rest =>
    have hpair : ¬(55296 ≤ u ∧ u < 56320 ∧ 56320 ≤ v ∧ v < 57344) := by
      rintro ⟨ha, hb, -⟩
      exact h ⟨ha, by omega⟩
    simp [fromUtf16Units, hpair, h]

theorem fromUtf16Units_id (us : List Nat) (h : ∀ u ∈ us, ¬(55296 ≤ u ∧ u < 57344)) :
    fromUtf16Units us = us := by
  induction us with
  | nil => rfl
  | cons u t ih =>
    rw [fromUtf16Units_cons u t (h u (by simp)), ih (fun x hx => h x (by simp [hx]))]

theorem fromUnicodeString_round (us : List Nat)
    (h : ∀ u ∈ us, u < 65536 ∧ ¬(55296 ≤ u ∧ u < 57344)) :
    msdtyp.FromUnicodeString (utf16leBytes us) = .ok us := by
  unfold msdtyp.FromUnicodeString
  rw [bytesToUnits_utf16leBytes us (fun u hu => (h u hu).1)]
  simp [fromUtf16Units_id us (fun u hu => (h u hu).2)]

theorem readU16_at (data pre rest : List Nat) (v p : Nat)
    (hd : data = pre ++ (u16le v ++ rest)) (hp : p = pre.length) :
    readU16 ⟨data, p⟩ = .ok (v % 65536, ⟨data, p + 2⟩) := by
  subst hd hp
  have hg : pre.length + 2 ≤ (pre ++ (u16le v ++ rest)).length := by
    simp [u16le]
  have h0 : (pre ++ (u16le v ++ rest)).getD pre.length 0 = v % 256 := by
    have := getD_append_len pre (u16le v ++ rest) 0 0
    simpa [u16le] using this
  have h1 : (pre ++ (u16le v ++ rest)).getD (pre.length + 1) 0 = v / 256 % 256 := by
    have := getD_append_len pre (u16le v ++ rest) 1 0
    simpa [u16le] using this
  have hv : v % 256 + 256 * (v / 256 % 256) = v % 65536 := by omega
  simp only [readU16]
  rw [if_pos hg]
  simp only [u16At, h0, h1, hv]

theorem readU32_at (data pre rest : List Nat) (v p : Nat)
    (hd : data = pre ++ (u32le v ++ rest)) (hp : p = pre.length) :
    readU32 ⟨data, p⟩ = .ok (v % U32, ⟨data, p + 4⟩) := by
  subst hd hp
  have hg : pre.length + 4 ≤ (pre ++ (u32le v ++ rest)).length := by
    simp [u32le]
  have h0 : (pre ++ (u32le v ++ rest)).getD pre.length 0 = v % 256 := by
    have := getD_append_len pre (u32le v ++ rest) 0 0
    simpa [u32le] using this
  have h1 : (pre ++ (u32le v ++ rest)).getD (pre.length + 1) 0 = v / 256 % 256 := by
    have := getD_append_len pre (u32le v ++ rest) 1 0
    simpa [u32le] using this
  have h2 : (pre ++ (u32le v ++ rest)).getD (pre.length + 2) 0 = v / 65536 % 256 := by
    have := getD_append_len pre (u32le v ++ rest) 2 0
    simpa [u32le] using this
  have h3 : (pre ++ (u32le v ++ rest)).getD (pre.length + 3) 0 = v / 16777216 % 256 := by
    have := getD_append_len pre (u32le v ++ rest) 3 0
    simpa [u32le] using this
  have hv : v % 256 + 256 * (v / 256 % 256) + 65536 * (v / 65536 % 256) +
      16777216 * (v / 16777216 % 256) = v % 4294967296 := by omega
  simp only [readU32]
  rw [if_pos hg]
  simp only [u32At, h0, h1, h2, h3, hv, U32]

theorem readBytes_at (data pre mid rest : List Nat) (p n : Nat)
    (hd : data = pre ++ (mid ++ rest)) (hp : p = pre.length) (hn : n = mid.length) :
    readBytes ⟨data, p⟩ n = .ok (mid, ⟨data, p + n⟩) := by
  subst hd hp hn
  have hg : pre.length + mid.length ≤ (pre ++ (mid ++ rest)).length := by
    simp [List.length_append]
  rw [readBytes]
  simp only [hg, if_pos, List.drop_left, List.take_left]

theorem writeRRP_bytes (us : RRPUnicodeStr) (r : Nat) (hr : r ≠ 0) (hS : us.S ≠ [])
    (hterm : us.S.getLast? ≠ some 0) :
    (writeRRPUnicodeStr us r false).1.bytes =
      u16le (goLen (us.S ++ [0]) % 65536 * 2) ++
        (u16le ((if us.MaxLength < goLen (us.S ++ [0]) % 65536 then goLen (us.S ++ [0]) % 65536
            else us.MaxLength) * 2) ++
          (u32le r ++
            writeConformantVaryingString
              ⟨if us.MaxLength < goLen (us.S ++ [0]) % 65536 then goLen (us.S ++ [0]) % 65536
                else us.MaxLength, us.S ++ [0]⟩)) := by
  have hNT := nullTerminate_of_not_term us.S hterm
  by_cases hM : us.MaxLength < goLen (us.S ++ [0]) % 65536 <;>
    simp [writeRRPUnicodeStr, writeConformantVaryingStringPtr, hS, hr, hNT, hM,
      apply_ite RRPUnicodeStr.S, WOut.w, WOut.wRef, WOut.append_bytes, List.append_assoc]

/-- Counterexample to C2: the ASCII string "a\0" (which already ends in a null
character) satisfies the claim's hypotheses with `maximumLength = 2`, yet
decoding its null-terminated encoding returns "a", not "a\0": the encoder
appends no terminator but the decoder still strips one. -/
theorem roundtrip_trailing_null_cex :
    (readRRPUnicodeStr ⟨(writeRRPUnicodeStr ⟨2, [97, 0]⟩ 1 false).1.bytes, 0⟩).map
        (fun t => t.1) = .ok [97] ∧
    ([97] : GoStr) ≠ [97, 0] ∧
    ([97, 0] : GoStr).length ≤ (RRPUnicodeStr.mk 2 [97, 0]).MaxLength ∧
    (∀ c ∈ ([97, 0] : GoStr), c < 128) :=
  ⟨by decide, by decide, by decide, by decide⟩

/-- C2 (amended): for every BMP string S (all scalar values below 2^16, no
surrogates) that does not already end in a null character, whose UTF-8 length
keeps the `uint16` length fields from overflowing, and every
`maximumLength ≥ length(S)` below 2^16 (it is a `uint16` field), decoding the
null-terminated encoding of S — `readRRPUnicodeStr` applied to the bytes of
`writeRRPUnicodeStr` — returns exactly S, with the appended terminator
stripped. -/
theorem roundtrip_amended (us : RRPUnicodeStr)
    (hBMP : ∀ c ∈ us.S, c < 65536 ∧ ¬(55296 ≤ c ∧ c < 57344))
    (hterm : us.S.getLast? ≠ some 0)
    (hlen : goLen us.S + 1 < 32768)
    (hml : us.MaxLength < 65536)
    (hmax : goLen us.S ≤ us.MaxLength) :
    (readRRPUnicodeStr ⟨(writeRRPUnicodeStr us 1 false).1.bytes, 0⟩).map (fun t => t.1) =
      .ok us.S := by
  by_cases hS : us.S = []
  · have hb : (writeRRPUnicodeStr us 1 false).1.bytes =
        u16le 0 ++ (u16le (us.MaxLength * 2) ++
          (u32le 1 ++ (u32le us.MaxLength ++ (u32le 0 ++ u32le 0)))) := by
      simp [writeRRPUnicodeStr, hS, writeConformantVaryingStringPtr,
        writeConformantVaryingString, WOut.w, WOut.wRef, WOut.append_bytes,
        msdtyp.NewUnicodeStr, goLen, List.append_assoc]
    have h1 : readU16 ⟨(writeRRPUnicodeStr us 1 false).1.bytes, 0⟩ =
        .ok (0, ⟨(writeRRPUnicodeStr us 1 false).1.bytes, 2⟩) := by
      have := readU16_at ((writeRRPUnicodeStr us 1 false).1.bytes) []
        (u16le (us.MaxLength * 2) ++ (u32le 1 ++ (u32le us.MaxLength ++ (u32le 0 ++ u32le 0))))
        0 0 (by simpa using hb) rfl
      simpa using this
    have h2 : readU16 ⟨(writeRRPUnicodeStr us 1 false).1.bytes, 2⟩ =
        .ok (us.MaxLength * 2 % 65536, ⟨(writeRRPUnicodeStr us 1 false).1.bytes, 4⟩) := by
      have := readU16_at ((writeRRPUnicodeStr us 1 false).1.bytes) (u16le 0)
        (u32le 1 ++ (u32le us.MaxLength ++ (u32le 0 ++ u32le 0))) (us.MaxLength * 2) 2
        (by simpa using hb) (by simp [u16le])
      simpa using this
    simp [readRRPUnicodeStr, readRPCUnicodeStr, h1, h2, Bind.bind, Except.bind, pure,
      Except.pure, seekCur, msdtyp.StripNullByte, Except.map, hS]
  · have h0all : ∀ c ∈ us.S ++ [0], c < 65536 ∧ ¬(55296 ≤ c ∧ c < 57344) := by
      intro c hc
      rcases List.mem_append.mp hc with h | h
      · exact hBMP c h
      · simp only [List.mem_singleton] at h
        subst h
        norm_num
    have hNTS : msdtyp.NullTerminate (us.S ++ [0]) = us.S ++ [0] := by
      unfold msdtyp.NullTerminate
      rw [if_pos (List.getLast?_concat us.S)]
    have hunits : unitsOf (us.S ++ [0]) = us.S ++ [0] :=
      unitsOf_bmp _ (fun c hc => (h0all c hc).1)
    have hgl : goLen (us.S ++ [0]) = goLen us.S + 1 := by
      simp [goLen_append, goLen, utf8Size]
    have hglmod : goLen (us.S ++ [0]) % 65536 = goLen us.S + 1 := by
      rw [hgl]
      exact Nat.mod_eq_of_lt (by omega)
    have hlenS : (us.S ++ [0]).length ≤ goLen (us.S ++ [0]) := length_le_goLen _
    have hcnt_lt : (us.S ++ [0]).length < U32 := by
      have : (us.S ++ [0]).length < 32768 := by omega
      simp only [U32]
      omega
    obtain ⟨M', hM'⟩ : ∃ M',
        (if us.MaxLength < goLen (us.S ++ [0]) % 65536 then goLen (us.S ++ [0]) % 65536
          else us.MaxLength) = M' := ⟨_, rfl⟩
    have hM'lt : M' < 65536 := by
      rw [← hM']
      split_ifs
      · rw [hglmod]; omega
      · exact hml
    have hM'pos : 0 < M' := by
      rw [← hM']
      split_ifs with h
      · rw [hglmod]; omega
      · rw [hglmod] at h; omega
    have hcvs := writeCVS_eq ⟨M', us.S ++ [0]⟩ (by simp)
    have hcount : (msdtyp.NewUnicodeStr (us.S ++ [0]) true).count = (us.S ++ [0]).length := by
      rw [newUnicodeStr_count_true, hNTS, hunits]
      exact Nat.mod_eq_of_lt hcnt_lt
    have hbuffer : (msdtyp.NewUnicodeStr (us.S ++ [0]) true).buffer =
        utf16leBytes (us.S ++ [0]) := by
      rw [newUnicodeStr_buffer_true, hNTS]
      unfold toUnicodeBytes
      rw [hunits]
    have hbytes : (writeRRPUnicodeStr us 1 false).1.bytes =
        u16le ((goLen us.S + 1) * 2) ++
          (u16le (M' * 2) ++
            (u32le 1 ++
              (u32le M' ++
                (u32le 0 ++
                  (u32le (us.S.length + 1) ++
                    (utf16leBytes (us.S ++ [0]) ++
                      List.replicate (msdtyp.NewUnicodeStr (us.S ++ [0]) true).paddlen 0)))))) := by
      rw [writeRRP_bytes us 1 (by norm_num) hS hterm, hM', hglmod, hcvs,
        newUnicodeStr_offset, hcount, hbuffer]
      simp [List.append_assoc]
    have e1 : readU16 ⟨(writeRRPUnicodeStr us 1 false).1.bytes, 0⟩ =
        .ok ((goLen us.S + 1) * 2, ⟨(writeRRPUnicodeStr us 1 false).1.bytes, 2⟩) := by
      have := readU16_at ((writeRRPUnicodeStr us 1 false).1.bytes) [] _
        ((goLen us.S + 1) * 2) 0 (by simpa using hbytes) rfl
      rw [Nat.mod_eq_of_lt (by omega : (goLen us.S + 1) * 2 < 65536)] at this
      simpa using this
    have e2 : readU16 ⟨(writeRRPUnicodeStr us 1 false).1.bytes, 2⟩ =
        .ok (M' * 2 % 65536, ⟨(writeRRPUnicodeStr us 1 false).1.bytes, 4⟩) := by
      have := readU16_at ((writeRRPUnicodeStr us 1 false).1.bytes)
        (u16le ((goLen us.S + 1) * 2)) _ (M' * 2) 2 hbytes (by simp [u16le])
      simpa using this
    have e3 : readU32 ⟨(writeRRPUnicodeStr us 1 false).1.bytes, 8⟩ =
        .ok (M', ⟨(writeRRPUnicodeStr us 1 false).1.bytes, 12⟩) := by
      have := readU32_at ((writeRRPUnicodeStr us 1 false).1.bytes)
        (u16le ((goLen us.S + 1) * 2) ++ u16le (M' * 2) ++ u32le 1)
        (u32le 0 ++
          (u32le (us.S.length + 1) ++
            (utf16leBytes (us.S ++ [0]) ++
              List.replicate (msdtyp.NewUnicodeStr (us.S ++ [0]) true).paddlen 0))) M' 8
        (by rw [hbytes]; simp [List.append_assoc]) (by simp [u16le, u32le])
      rw [Nat.mod_eq_of_lt (by simp only [U32]; omega : M' < U32)] at this
      simpa using this
    have e4 : readU32 ⟨(writeRRPUnicodeStr us 1 false).1.bytes, 12⟩ =
        .ok (0, ⟨(writeRRPUnicodeStr us 1 false).1.bytes, 16⟩) := by
      have := readU32_at ((writeRRPUnicodeStr us 1 false).1.bytes)
        (u16le ((goLen us.S + 1) * 2) ++ u16le (M' * 2) ++ u32le 1 ++ u32le M')
        (u32le (us.S.length + 1) ++
          (utf16leBytes (us.S ++ [0]) ++
            List.replicate (msdtyp.NewUnicodeStr (us.S ++ [0]) true).paddlen 0)) 0 12
        (by rw [hbytes]; simp [List.append_assoc]) (by simp [u16le, u32le])
      simpa using this
    have hlen1s : us.S.length + 1 < 32768 := by
      have h1 : (us.S ++ [0]).length = us.S.length + 1 := by simp
      rw [h1, hgl] at hlenS
      omega
    have hlen1 : (us.S.length + 1) < U32 := by
      simp only [U32]
      omega
    have e5 : readU32 ⟨(writeRRPUnicodeStr us 1 false).1.bytes, 16⟩ =
        .ok (us.S.length + 1, ⟨(writeRRPUnicodeStr us 1 false).1.bytes, 20⟩) := by
      have := readU32_at ((writeRRPUnicodeStr us 1 false).1.bytes)
        (u16le ((goLen us.S + 1) * 2) ++ u16le (M' * 2) ++ u32le 1 ++ u32le M' ++ u32le 0)
        (utf16leBytes (us.S ++ [0]) ++
          List.replicate (msdtyp.NewUnicodeStr (us.S ++ [0]) true).paddlen 0)
        (us.S.length + 1) 16
        (by rw [hbytes]; simp [List.append_assoc]) (by simp [u16le, u32le])
      rw [Nat.mod_eq_of_lt hlen1] at this
      simpa using this
    have e6 : readBytes ⟨(writeRRPUnicodeStr us 1 false).1.bytes, 20⟩
          ((us.S.length + 1) * 2 % U32) =
        .ok (utf16leBytes (us.S ++ [0]),
          ⟨(writeRRPUnicodeStr us 1 false).1.bytes, 20 + (us.S.length + 1) * 2 % U32⟩) := by
      have hn : (us.S.length + 1) * 2 % U32 = (utf16leBytes (us.S ++ [0])).length := by
        rw [utf16leBytes_length]
        have h2 : (us.S.length + 1) * 2 < U32 := by
          simp only [U32]
          omega
        rw [Nat.mod_eq_of_lt h2]
        simp
        omega
      exact readBytes_at ((writeRRPUnicodeStr us 1 false).1.bytes)
        (u16le ((goLen us.S + 1) * 2) ++ u16le (M' * 2) ++ u32le 1 ++ u32le M' ++ u32le 0 ++
          u32le (us.S.length + 1))
        (utf16leBytes (us.S ++ [0]))
        (List.replicate (msdtyp.NewUnicodeStr (us.S ++ [0]) true).paddlen 0)
        20 ((us.S.length + 1) * 2 % U32)
        (by rw [hbytes]; simp [List.append_assoc]) (by simp [u16le, u32le]) hn
    have e7 : msdtyp.FromUnicodeString (utf16leBytes (us.S ++ [0])) = .ok (us.S ++ [0]) :=
      fromUnicodeString_round _ h0all
    have hl1 : ¬((goLen us.S + 1) * 2 = 0) := by omega
    have hM'ne : ¬(M' = 0) := by omega
    simp [readRRPUnicodeStr, readRPCUnicodeStr, readConformantVaryingStringPtr,
      readConformantVaryingString, seekCur, Bind.bind, Except.bind, pure, Except.pure,
      e1, e2, e3, e4, e5, e6, e7, hl1, hM'ne, Except.map, msdtyp.StripNullByte,
      readPaddSkip]

/-- Witness for `roundtrip_amended` at the concrete ASCII string "So" with
`maximumLength = 8`. -/
theorem roundtrip_amended_witness :
    (∀ c ∈ (RRPUnicodeStr.mk 8 [83, 111]).S, c < 65536 ∧ ¬(55296 ≤ c ∧ c < 57344)) ∧
    (RRPUnicodeStr.mk 8 [83, 111]).S.getLast? ≠ some 0 ∧
    goLen (RRPUnicodeStr.mk 8 [83, 111]).S + 1 < 32768 ∧
    (RRPUnicodeStr.mk 8 [83, 111]).MaxLength < 65536 ∧
    goLen (RRPUnicodeStr.mk 8 [83, 111]).S ≤ (RRPUnicodeStr.mk 8 [83, 111]).MaxLength ∧
    (readRRPUnicodeStr ⟨(writeRRPUnicodeStr ⟨8, [83, 111]⟩ 1 false).1.bytes, 0⟩).map
        (fun t => t.1) = .ok [83, 111] :=
  ⟨by decide, by decide, by decide, by decide, by decide,
    roundtrip_amended ⟨8, [83, 111]⟩ (by decide) (by decide) (by decide) (by decide)
      (by decide)⟩
